import Mathlib

/-!
# Verification of the log-processing job execution engine

Shallow embedding of the worker (`logProcessingWorker`) of the
log-processing repository: the line parser, the statistics accumulator,
the streaming scanner, file retrieval with retry/backoff, and the job
lifecycle controller.  Strings are modelled as `List Char`; the JS
`Record<string, number>` maps are modelled as association lists in
insertion order.  Every definition is translated from the source file;
definitions that model behaviour the spec describes but the code does not
implement are marked `Modelled from the spec`.
-/

namespace LogProc

/-- Decidable equality for `Except`, used to evaluate concrete retrieval
outcomes. -/
instance {ε α : Type} [DecidableEq ε] [DecidableEq α] : DecidableEq (Except ε α) := fun a b =>
  match a, b with
  | .ok x, .ok y =>
    if h : x = y then .isTrue (congrArg Except.ok h)
    else .isFalse (fun hh => h (Except.ok.inj hh))
  | .error x, .error y =>
    if h : x = y then .isTrue (congrArg Except.error h)
    else .isFalse (fun hh => h (Except.error.inj hh))
  | .ok _, .error _ => .isFalse (fun hh => Except.noConfusion hh)
  | .error _, .ok _ => .isFalse (fun hh => Except.noConfusion hh)

/-! ## Character classes (JS regex classes `\s`, `\w`, `.` and digits) -/

/-- JS regex `\s` restricted to the ASCII whitespace characters
(space, tab, newline, carriage return, vertical tab, form feed). -/
def isWsJS (c : Char) : Bool :=
  c = ' ' || c = '\t' || c = '\n' || c = '\r' || c = '\x0b' || c = '\x0c'

/-- JS regex `\w`: `[A-Za-z0-9_]`. -/
def isWordCh (c : Char) : Bool :=
  c.isAlpha || c.isDigit || c = '_'

/-- JS regex `.` (no `s` flag): any character except a line terminator. -/
def isDotCh (c : Char) : Bool :=
  c ≠ '\n' && c ≠ '\r'

/-! ## Association-list model of `Record<string, number>` -/

/-- Lookup in a JS object used as a counter map: `m[k] || 0`. -/
def lookupCount (m : List (List Char × Nat)) (k : List Char) : Nat :=
  match m.find? (fun p => p.1 = k) with
  | some p => p.2
  | none => 0

/-- `m[k] = (m[k] || 0) + 1`: increment an existing key in place, or append
a fresh key with count 1 (JS objects keep insertion order). -/
def bumpCount (m : List (List Char × Nat)) (k : List Char) : List (List Char × Nat) :=
  if (m.find? (fun p => p.1 = k)).isSome then
    m.map (fun p => if p.1 = k then (p.1, p.2 + 1) else p)
  else
    m ++ [(k, 1)]

/-- `m[k]++` on a key that the code guarantees is already present
(the keyword map is pre-initialised with every configured keyword):
increments the entry, leaves the key set unchanged. -/
def incExisting (m : List (List Char × Nat)) (k : List Char) : List (List Char × Nat) :=
  m.map (fun p => if p.1 = k then (p.1, p.2 + 1) else p)

/-! ## `parseInt(str, 10)` and `isIPAddress` -/

/-- Numeric value of a list of decimal digit characters. -/
def digitsToNat (ds : List Char) : Nat :=
  ds.foldl (fun a c => a * 10 + (c.toNat - '0'.toNat)) 0

/-- JS `parseInt(s, 10)`: skip leading whitespace, optional sign, then the
longest prefix of decimal digits; `NaN` (here `none`) when that prefix is
empty.  Trailing non-digit characters are ignored. -/
def parseIntJS (cs : List Char) : Option Int :=
  let cs1 := cs.dropWhile isWsJS
  let neg : Bool := cs1.head? = some '-'
  let cs2 := if cs1.head? = some '-' ∨ cs1.head? = some '+' then cs1.tail else cs1
  let ds := cs2.takeWhile Char.isDigit
  if ds.isEmpty then none
  else some ((if neg then (-1 : Int) else 1) * (digitsToNat ds : Int))

/-- JS `str.split(".")`: split on every dot, keeping empty segments. -/
def splitOnDot : List Char → List (List Char)
  | [] => [[]]
  | c :: r =>
    if c = '.' then [] :: splitOnDot r
    else
      match splitOnDot r with
      | p :: ps => (c :: p) :: ps
      | [] => [[c]]

/-- `isIPAddress` from the worker: split on `"."`, require exactly four
parts, and require `parseInt(part, 10)` of every part to be a number in
`[0, 255]`. -/
def isIPAddress (cs : List Char) : Bool :=
  let parts := splitOnDot cs
  parts.length = 4 &&
    parts.all (fun p =>
      match parseIntJS p with
      | some n => decide (0 ≤ n ∧ n ≤ 255)
      | none => false)

/-- Spec-side notion of a valid dotted-quad IPv4 string: exactly four
dot-separated segments, each a nonempty string of decimal digits whose
value is at most 255. -/
def isDottedQuad (cs : List Char) : Bool :=
  let parts := splitOnDot cs
  parts.length = 4 &&
    parts.all (fun p => !p.isEmpty && p.all Char.isDigit && digitsToNat p ≤ 255)

example : isIPAddress "1.2.3.4".toList = true := by decide
example : isIPAddress "256.2.3.4".toList = false := by decide
example : isIPAddress "1.2.3".toList = false := by decide
example : isIPAddress "1a.2.3.4".toList = true := by decide
example : isIPAddress "a1.2.3.4".toList = false := by decide
example : isDottedQuad "1a.2.3.4".toList = false := by decide

/-! ## Data model: `LogStats` and parsed JSON payloads -/

/-- `LogStats` from the worker.  `keywordMatches` and `ipAddresses` are JS
objects used as counter maps, modelled as insertion-ordered association
lists.  `processingTime` is wall-clock milliseconds; the embedding carries
the field but does not model the clock. -/
structure LogStats where
  totalEntries : Nat
  errorCount : Nat
  keywordMatches : List (List Char × Nat)
  ipAddresses : List (List Char × Nat)
  processingTime : Nat
deriving Repr, DecidableEq

/-- A parsed JSON value as far as `extractIPs` can observe it:
`extractIPs` looks only at string values and recurses into values of
`typeof "object"` (plain objects and arrays alike, via `Object.entries`),
so a payload is a tree whose inner nodes carry the list of entry values
(encoded as a cons chain `objCons v rest` ending in `objNil`, so that the
walk is plain structural recursion) and whose leaves are strings or
ignored primitives (numbers, booleans, `null`). -/
inductive JTree where
  | leafStr (s : List Char)
  | leafOther
  | objNil
  | objCons (value : JTree) (rest : JTree)
deriving Repr, DecidableEq

/-- Build an object/array node from the list of its entry values. -/
def JTree.obj (cs : List JTree) : JTree :=
  cs.foldr .objCons .objNil

/-- `typeof value === "object"` (for values produced by `JSON.parse`,
which never yields JS `undefined`/functions, and where `null` is kept in
`leafOther` since the code filters it out before recursing). -/
def JTree.isObj : JTree → Bool
  | .objNil | .objCons _ _ => true
  | _ => false

/-- The recursive walk of `extractIPs` over one `Object.entries` value
list: each string value is counted when `isIPAddress` accepts it, each
object value is walked recursively, anything else is skipped.  On
`objCons v rest`, `v` is handled as an entry value and `rest` as the
remaining entries. -/
def extractIPsVal (s : LogStats) : JTree → LogStats
  | .leafStr v =>
      if isIPAddress v then { s with ipAddresses := bumpCount s.ipAddresses v } else s
  | .leafOther => s
  | .objNil => s
  | .objCons v rest => extractIPsVal (extractIPsVal s v) rest

/-- `extractIPs(obj, stats)`: the worker only calls it on values of
`typeof "object"`, and it walks the entry values recursively. -/
def extractIPs (s : LogStats) (t : JTree) : LogStats :=
  if t.isObj then extractIPsVal s t else s

/-! ## `extractIPsFromText`: the scan with `/\b\d{1,3}\.\d{1,3}\.\d{1,3}\.\d{1,3}\b/g` -/

/-- One attempt of the dotted-quad regex at the current position: four runs
of 1–3 digits separated by dots, with a word boundary after the last run.
Greedy `\d{1,3}` with backtracking succeeds exactly when each maximal digit
run has length 1–3 and is followed by the required delimiter (a longer run
leaves a digit, i.e. a word character, where `\.` or `\b` is required). -/
def tryIP (cs : List Char) : Option (List Char) :=
  let d1 := cs.takeWhile Char.isDigit
  let r1 := cs.dropWhile Char.isDigit
  if d1.isEmpty ∨ 3 < d1.length then none else
  match r1 with
  | '.' :: r1b =>
    let d2 := r1b.takeWhile Char.isDigit
    let r2 := r1b.dropWhile Char.isDigit
    if d2.isEmpty ∨ 3 < d2.length then none else
    match r2 with
    | '.' :: r2b =>
      let d3 := r2b.takeWhile Char.isDigit
      let r3 := r2b.dropWhile Char.isDigit
      if d3.isEmpty ∨ 3 < d3.length then none else
      match r3 with
      | '.' :: r3b =>
        let d4 := r3b.takeWhile Char.isDigit
        let r4 := r3b.dropWhile Char.isDigit
        if d4.isEmpty ∨ 3 < d4.length then none else
        if (match r4 with | [] => true | c :: _ => !isWordCh c) then
          some (d1 ++ '.' :: (d2 ++ '.' :: (d3 ++ '.' :: d4)))
        else none
      | _ => none
    | _ => none
  | _ => none

/-- Global regex scan: try the pattern at each position whose left context
is a word boundary (`prevWord` records whether the previous character is a
word character); after a match, continue right after it (the matched text
always has at least one character, so `rest.drop (ip.length - 1)` is the
input after the match).  The `fuel` argument only makes the recursion
structural: each step consumes at least one character, so
`fuel = text.length` never runs out. -/
def ipScanAux : Nat → Bool → List Char → List (List Char)
  | 0, _, _ => []
  | _, _, [] => []
  | fuel + 1, prevWord, c :: rest =>
    if !prevWord && c.isDigit then
      match tryIP (c :: rest) with
      | some ip => ip :: ipScanAux fuel true (rest.drop (ip.length - 1))
      | none => ipScanAux fuel (isWordCh c) rest
    else ipScanAux fuel (isWordCh c) rest

/-- `text.match(/\b\d{1,3}\.\d{1,3}\.\d{1,3}\.\d{1,3}\b/g)` (as a list,
`[]` for `null`). -/
def ipScan (text : List Char) : List (List Char) :=
  ipScanAux text.length false text

/-- `extractIPsFromText(text, stats)`: every regex match that also passes
`isIPAddress` bumps its counter. -/
def extractIPsFromText (text : List Char) (s : LogStats) : LogStats :=
  (ipScan text).foldl
    (fun acc ip =>
      if isIPAddress ip then { acc with ipAddresses := bumpCount acc.ipAddresses ip }
      else acc) s

example : ipScan "from 10.0.0.1 to 10.0.0.2".toList
    = ["10.0.0.1".toList, "10.0.0.2".toList] := by decide
example : ipScan "x1.2.3.4 and 1234.5.6.7".toList = [] := by decide
example : ipScan "1.2.3.4.5".toList = ["1.2.3.4".toList] := by decide

/-! ## The line parser: `LOG_REGEX` and `parseLine`

`LOG_REGEX = /\[(.*?)\]\s+(\w+)\s+(.*?)(?:\s+(\{.*\}))?$/`, applied with
`line.match(...)` (leftmost match, not anchored at the start).  The match
is modelled by a hand-specialised backtracking matcher:

* `\[(.*?)\]`: the lazy group tries each `]` after the opening `[` in
  order, provided every skipped character matches `.`;
* `\s+(\w+)\s+` is deterministic once the `]` is fixed, because `\s` and
  `\w` are disjoint character classes, so shrinking a maximal run can
  never repair a failure;
* the tail `(.*?)(?:\s+(\{.*\}))?$` grows the lazy message group one
  character at a time, at each cut first trying the optional json group
  (a maximal whitespace run, then `{`, then greedy `.*`, then a final `}`
  that — because of `$` — must be the last character), then `$` itself
  (which only succeeds on the empty remainder). -/

/-- Candidates of the lazy group `\[(.*?)\]` after the `[` has been
consumed: every split `cs = g ++ ']' :: rest` where all of `g` matches
`.`, in the order the lazy quantifier tries them. -/
def group1Cands : List Char → List (List Char × List Char)
  | [] => []
  | c :: rest =>
    let tails :=
      if isDotCh c then (group1Cands rest).map (fun gr => (c :: gr.1, gr.2)) else []
    if c = ']' then ([], rest) :: tails else tails

/-- The optional `(?:\s+(\{.*\}))?` followed by `$`, attempted at one cut
of the message group: a nonempty whitespace run, then `{`, and the rest
must consist of `.`-characters ending in a final `}`.  Returns the json
group (`\{.*\}`, i.e. everything from the `{` to the end). -/
def tailOpt (cs : List Char) : Option (List Char) :=
  let w := cs.takeWhile isWsJS
  let r := cs.dropWhile isWsJS
  if w.isEmpty then none
  else if r.head? = some '{' ∧ r.getLast? = some '}' ∧ r.tail.dropLast.all isDotCh then
    some r
  else none

/-- The tail `(.*?)(?:\s+(\{.*\}))?$`: grow the lazy message group one
character at a time; at each cut try the optional json group first, then
(on the empty remainder) bare `$`.  Returns `(message, json?)`, or `none`
when a line terminator blocks `.` before any cut succeeds. -/
def tailScan : List Char → Option (List Char × Option (List Char))
  | [] => some ([], none)
  | c :: cs =>
    match tailOpt (c :: cs) with
    | some g4 => some ([], some g4)
    | none =>
      if isDotCh c then (tailScan cs).map (fun mg => (c :: mg.1, mg.2))
      else none

/-- `\s+(\w+)\s+` then the tail, after a fixed `]`: maximal whitespace run
(nonempty), maximal word run (nonempty), maximal whitespace run
(nonempty), then `tailScan`.  Returns `(level, message, json?)`. -/
def middleTail (cs : List Char) : Option (List Char × List Char × Option (List Char)) :=
  let w := cs.takeWhile isWsJS
  let r1 := cs.dropWhile isWsJS
  if w.isEmpty then none
  else
    let v := r1.takeWhile isWordCh
    let r2 := r1.dropWhile isWordCh
    if v.isEmpty then none
    else
      let u := r2.takeWhile isWsJS
      let r3 := r2.dropWhile isWsJS
      if u.isEmpty then none
      else (tailScan r3).map (fun mg => (v, mg.1, mg.2))

/-- Try the `]` candidates of the lazy timestamp group in order. -/
def tryCands : List (List Char × List Char) →
    Option (List Char × List Char × List Char × Option (List Char))
  | [] => none
  | (g1, rest) :: more =>
    match middleTail rest with
    | some lmj => some (g1, lmj.1, lmj.2.1, lmj.2.2)
    | none => tryCands more

/-- `line.match(LOG_REGEX)`: try every start position from the left; a
match can only start at a `[`.  Returns
`(timestamp, level, message, json?)`. -/
def matchLine : List Char → Option (List Char × List Char × List Char × Option (List Char))
  | [] => none
  | c :: rest =>
    (if c = '[' then tryCands (group1Cands rest) else none) <|> matchLine rest

/-- `ParsedLog` from the worker. -/
structure ParsedLog where
  timestamp : List Char
  level : List Char
  message : List Char
  jsonPayload : Option JTree
deriving Repr, DecidableEq

/-- `parseLine(line)`: apply `LOG_REGEX`; on a match build the record,
parsing the trailing json group with `JSON.parse` when present and
treating a parse failure as an absent payload.  `JSON.parse` is an
external runtime primitive, so the parser is abstracted as `jp`; the
whole function is wrapped in `try/catch` in the source and is total
here. -/
def parseLine (jp : List Char → Option JTree) (line : List Char) : Option ParsedLog :=
  (matchLine line).map (fun m =>
    { timestamp := m.1
      level := m.2.1
      message := m.2.2.1
      jsonPayload := m.2.2.2.bind jp })

/-- A `JSON.parse` stand-in that rejects everything (payloads malformed). -/
def jpNone : List Char → Option JTree := fun _ => none

example : parseLine jpNone "[t] ERROR something timeout happened".toList
    = some ⟨"t".toList, "ERROR".toList, "something timeout happened".toList, none⟩ := by decide
example : matchLine "[2024] INFO hello world \x7b\"a\":1\x7d".toList
    = some ("2024".toList, "INFO".toList, "hello world".toList,
        some "\x7b\"a\":1\x7d".toList) := by decide
example : parseLine jpNone "no brackets here".toList = none := by decide
example : parseLine jpNone "[t] INFO".toList = none := by decide
example : matchLine "x[t] INFO hello".toList
    = some ("t".toList, "INFO".toList, "hello".toList, none) := by decide
example : matchLine "[a] b] INFO m".toList
    = some ("a] b".toList, "INFO".toList, "m".toList, none) := by decide

/-! ## Statistics accumulator and streaming scanner (`processLogFile`) -/

/-- Lower-case a string the way `toLowerCase()` does on ASCII input. -/
def toLowerStr (cs : List Char) : List Char :=
  cs.map Char.toLower

/-- `hay.includes(needle)`: `needle` occurs as a contiguous run in `hay`
(always true for the empty needle). -/
def hasSub (needle : List Char) : List Char → Bool
  | [] => needle.isEmpty
  | c :: rest => needle.isPrefixOf (c :: rest) || hasSub needle rest

/-- The statistics object created at the top of `processLogFile`:
all counters zero, `keywordMatches` pre-initialised to `0` for every
configured keyword (`KEYWORDS.forEach`), `ipAddresses` empty. -/
def initStats (kws : List (List Char)) : LogStats :=
  { totalEntries := 0
    errorCount := 0
    keywordMatches := kws.map (fun k => (k, 0))
    ipAddresses := []
    processingTime := 0 }

/-- The per-line fold of `processLogFile`: skip unparseable lines;
otherwise count the entry, count an error when the level lower-cases to
`"error"`, bump every configured keyword that is a (case-insensitive)
substring of the message, then run both IP extractions.  The configured
keywords are already lower-cased (`MONITORED_KEYWORDS` is lower-cased at
load). -/
def foldLine (jp : List Char → Option JTree) (kws : List (List Char))
    (s : LogStats) (line : List Char) : LogStats :=
  match parseLine jp line with
  | none => s
  | some parsed =>
    let s1 := { s with totalEntries := s.totalEntries + 1 }
    let s2 :=
      if toLowerStr parsed.level = "error".toList then
        { s1 with errorCount := s1.errorCount + 1 }
      else s1
    let s3 := kws.foldl
      (fun acc kw =>
        if hasSub kw (toLowerStr parsed.message) then
          { acc with keywordMatches := incExisting acc.keywordMatches kw }
        else acc) s2
    let s4 :=
      match parsed.jsonPayload with
      | some t => if t.isObj then extractIPsVal s3 t else s3
      | none => s3
    extractIPsFromText parsed.message s4

/-- The line loop of `processLogFile`.  `aborted` is the **boolean value**
the function received when it was called — JS passes primitives by value,
so the `if (aborted) break` at the top of the loop body re-reads the same
constant on every iteration. -/
def scanLines (jp : List Char → Option JTree) (kws : List (List Char))
    (aborted : Bool) : List (List Char) → LogStats → LogStats
  | [], s => s
  | line :: rest, s =>
    if aborted then s
    else scanLines jp kws aborted rest (foldLine jp kws s line)

/-- `processLogFile(filePath, job, aborted)` restricted to its
statistics-producing core: initialise the accumulator, then fold every
line of the file (progress reporting, memory sampling and
`processingTime` are wall-clock effects that do not change the
counters). -/
def processLogFile (jp : List Char → Option JTree) (kws : List (List Char))
    (lines : List (List Char)) (aborted : Bool) : LogStats :=
  scanLines jp kws aborted lines (initStats kws)

/-- Modelled from the spec (§4.3 Cancellation, missing from the code):
the scanner receives a live cancellation *signal*, checks it once per
line, and stops as soon as it observes the signal set, returning the
partial statistics accumulated so far.  `sig i` is the value of the
signal when line `i` (0-based) is about to be processed. -/
def scanLinesSignal (jp : List Char → Option JTree) (kws : List (List Char))
    (sig : Nat → Bool) : Nat → List (List Char) → LogStats → LogStats
  | _, [], s => s
  | i, line :: rest, s =>
    if sig i then s
    else scanLinesSignal jp kws sig (i + 1) rest (foldLine jp kws s line)

/-- Modelled from the spec: `processLogFile` as §4.3 describes it, with a
cancellation signal instead of a by-value boolean. -/
def processLogFileSignal (jp : List Char → Option JTree) (kws : List (List Char))
    (lines : List (List Char)) (sig : Nat → Bool) : LogStats :=
  scanLinesSignal jp kws sig 0 lines (initStats kws)

/-! ## File retrieval (`downloadFile`): retries and exponential backoff -/

/-- The `while (retries < maxRetries)` loop of `downloadFile`.
`attempts i` is the outcome of the `i`-th storage attempt after buffer
conversion: a thrown error message, or the downloaded content.  A
zero-byte content throws `"Downloaded file is empty (0 bytes)"` inside
the `try`, so it becomes an attempt failure like any other.  After the
`k`-th failure the loop either throws the aggregated error (when the
retry budget `maxRetries` is exhausted) or sleeps `1000 * 2 ^ k` ms and
retries.  Returns (result, number of attempts made, backoff waits in
order).  `fuel` is `maxRetries - retries`, making the loop structural;
the fall-through `throw` after the loop is the `fuel = 0` case. -/
def downloadLoop (attempts : Nat → Except (List Char) (List Char))
    (maxRetries : Nat) :
    Nat → Nat → Except (List Char) (List Char) × Nat × List Nat
  | _, 0 => (.error "Failed to download file after maximum retries".toList, 0, [])
  | retries, fuel + 1 =>
    let outcome : Except (List Char) (List Char) :=
      match attempts retries with
      | .ok content =>
        if content.length = 0 then .error "Downloaded file is empty (0 bytes)".toList
        else .ok content
      | .error m => .error m
    match outcome with
    | .ok content => (.ok content, 1, [])
    | .error m =>
      let retries' := retries + 1
      if maxRetries ≤ retries' then
        (.error ("Failed to download file after ".toList ++ (toString maxRetries).toList
          ++ " attempts: ".toList ++ m), 1, [])
      else
        let r := downloadLoop attempts maxRetries retries' fuel
        (r.1, r.2.1 + 1, (1000 * 2 ^ retries') :: r.2.2)

/-- `downloadFile(filePath, jobId, supabase)` with `maxRetries = 3` and
`retries = 0`. -/
def downloadFile (attempts : Nat → Except (List Char) (List Char)) :
    Except (List Char) (List Char) × Nat × List Nat :=
  downloadLoop attempts 3 0 3

/-! ## Durable-store writes and the job lifecycle controller -/

/-- Outcome of the fire-and-forget Redis publish inside a status write. -/
inductive PubResult where
  | ok
  | err
deriving Repr, DecidableEq

/-- `updateJobStatus`: a database error is logged and **re-thrown**
(`throw dbError`, re-thrown again by the outer `catch`); a publish
failure is caught and logged, never affecting the result. -/
def updateJobStatus (db : Except (List Char) Unit) (pub : PubResult) :
    Except (List Char) Unit :=
  match db, pub with
  | .error e, _ => .error e
  | .ok _, _ => .ok ()

/-- `updateJobStats` (the final atomic statistics + status write): same
error policy as `updateJobStatus`. -/
def updateJobStats (db : Except (List Char) Unit) (pub : PubResult) :
    Except (List Char) Unit :=
  match db, pub with
  | .error e, _ => .error e
  | .ok _, _ => .ok ()

/-- Split a character list at every `'\n'`, keeping empty segments. -/
def splitOnNl : List Char → List (List Char)
  | [] => [[]]
  | c :: r =>
    if c = '\n' then [] :: splitOnNl r
    else
      match splitOnNl r with
      | p :: ps => (c :: p) :: ps
      | [] => [[c]]

/-- Split file content into the lines `readline` emits: break at `'\n'`,
drop a `'\r'` left at the end of a line by a CRLF break
(`crlfDelay: Infinity`), and do not emit a final empty line for content
ending in a newline. -/
def splitLines (cs : List Char) : List (List Char) :=
  let parts := (splitOnNl cs).map
    (fun p => if p.getLast? = some '\r' then p.dropLast else p)
  if parts.getLast? = some [] then parts.dropLast else parts

/-- Terminal outcome of one job handler execution: the value returned to
the queue (`{ success: true, stats }`) or the error it threw (which the
queue layer records as the job's failure, `lastError = message`). -/
inductive Outcome where
  | completed (stats : LogStats)
  | failed (msg : List Char)
deriving Repr, DecidableEq

/-- What one handler execution did: its terminal outcome, whether the
local scratch file was created, and whether its deletion was attempted
before the handler returned. -/
structure RunResult where
  outcome : Outcome
  tempCreated : Bool
  deleteAttempted : Bool
deriving Repr, DecidableEq

/-- The external effects one job execution observes, in program order. -/
structure RunEnv where
  /-- Configured monitored keywords (already lower-cased). -/
  kws : List (List Char)
  /-- `JSON.parse` on trailing json payloads. -/
  jp : List Char → Option JTree
  /-- DB result of the `processing`/1% status write. -/
  db1 : Except (List Char) Unit
  pub1 : PubResult
  /-- Storage download attempts (see `downloadLoop`). -/
  attempts : Nat → Except (List Char) (List Char)
  /-- DB result of the `processing`/10% status write after download. -/
  db10 : Except (List Char) Unit
  pub10 : PubResult
  /-- DB result of the final `updateJobStats` write. -/
  dbStats : Except (List Char) Unit
  pubStats : PubResult
  /-- Value of the handler-local `aborted` boolean at the moment
  `processLogFile(tempFilePath, job, aborted)` is called; the safety
  timer has fired by then only if 3 minutes elapsed before the scan even
  started. -/
  abortedAtScanCall : Bool
  /-- Whether `fs.unlinkSync` succeeds on the success path (a failure is
  caught and logged). -/
  unlinkOk : Bool

/-- The job handler of `startWorker`, straight-line: on any thrown error
the `catch` block runs `cleanupJob` (which clears the safety timer and
persists the `failed` status with the error's message — it does **not**
delete the scratch file) and re-throws, so the job's terminal outcome is
`failed` with that message.  The scratch file is unlinked only on the
success path, after the final stats write, inside its own `try/catch`. -/
def runJob (env : RunEnv) : RunResult :=
  match updateJobStatus env.db1 env.pub1 with
  | .error e => { outcome := .failed e, tempCreated := false, deleteAttempted := false }
  | .ok _ =>
    match (downloadFile env.attempts).1 with
    | .error e => { outcome := .failed e, tempCreated := false, deleteAttempted := false }
    | .ok content =>
      if content.length = 0 then
        { outcome := .failed "Downloaded file is empty".toList
          tempCreated := true, deleteAttempted := false }
      else
        match updateJobStatus env.db10 env.pub10 with
        | .error e => { outcome := .failed e, tempCreated := true, deleteAttempted := false }
        | .ok _ =>
          let stats := processLogFile env.jp env.kws (splitLines content) env.abortedAtScanCall
          match updateJobStats env.dbStats env.pubStats with
          | .error e =>
            { outcome := .failed e, tempCreated := true, deleteAttempted := false }
          | .ok _ =>
            { outcome := .completed stats, tempCreated := true, deleteAttempted := true }

/-! ## Helper lemmas -/

/-- With a `false` abort flag the scanner is a plain fold over every line
of the file: the per-line check `if (aborted) break` re-reads the same
by-value boolean and can never fire. -/
theorem scanLines_false (jp : List Char → Option JTree) (kws : List (List Char)) :
    ∀ (lines : List (List Char)) (s : LogStats),
      scanLines jp kws false lines s = lines.foldl (foldLine jp kws) s := by
  intro lines
  induction lines with
  | nil => intro s; rfl
  | cons l rest ih => intro s; simp [scanLines, ih]

/-- `downloadLoop` makes at most `fuel` attempts. -/
theorem downloadLoop_attempts_le (A : Nat → Except (List Char) (List Char))
    (mr : Nat) : ∀ (fuel retries : Nat), (downloadLoop A mr retries fuel).2.1 ≤ fuel := by
  intro fuel
  induction fuel with
  | zero => intro retries; simp [downloadLoop]
  | succ n ih =>
    intro retries
    simp only [downloadLoop]
    split
    · simp
    · split
      · simp
      · simpa using Nat.succ_le_succ (ih (retries + 1))

/-- The backoff waits `downloadLoop` can produce starting from
`retries = 0` with budget 3: none, one of 2000 ms, or 2000 ms then
4000 ms. -/
theorem downloadFile_waits_shape (A : Nat → Except (List Char) (List Char)) :
    (downloadFile A).2.2 = [] ∨ (downloadFile A).2.2 = [2000] ∨
      (downloadFile A).2.2 = [2000, 4000] := by
  simp only [downloadFile, downloadLoop]
  split
  · simp
  · split
    · simp
    · split
      · simp
      · split
        · simp
        · split
          · simp
          · split
            · simp
            · omega

/-- One unfolding step of `downloadLoop`. -/
theorem downloadLoop_succ_eq (A : Nat → Except (List Char) (List Char))
    (mr retries fuel : Nat) :
    downloadLoop A mr retries (fuel + 1) =
      match (match A retries with
        | .ok content =>
          if content.length = 0 then
            .error "Downloaded file is empty (0 bytes)".toList
          else .ok content
        | .error m => .error m : Except (List Char) (List Char)) with
      | .ok content => (.ok content, 1, [])
      | .error m =>
        if mr ≤ retries + 1 then
          (.error ("Failed to download file after ".toList ++ (toString mr).toList
            ++ " attempts: ".toList ++ m), 1, [])
        else
          ((downloadLoop A mr (retries + 1) fuel).1,
            (downloadLoop A mr (retries + 1) fuel).2.1 + 1,
            (1000 * 2 ^ (retries + 1)) :: (downloadLoop A mr (retries + 1) fuel).2.2) := rfl

/-- `downloadLoop` with fuel left always makes at least one attempt. -/
theorem downloadLoop_attempts_pos (A : Nat → Except (List Char) (List Char))
    (mr retries fuel : Nat) : 1 ≤ (downloadLoop A mr retries (fuel + 1)).2.1 := by
  simp only [downloadLoop]
  split
  · simp
  · split <;> simp

/-! ## Claim C1: safety timeout and scanner cancellation -/

/-- A three-line file, every line parseable. -/
def linesC1 : List (List Char) :=
  ["[t1] INFO alpha".toList, "[t2] INFO beta".toList, "[t3] INFO gamma".toList]

/-- C1.  The safety-timer callback sets the handler-local boolean
`aborted`, but `processLogFile(tempFilePath, job, aborted)` received that
boolean **by value** — `false`, since the scan starts before the 3-minute
timer can fire — so the scanner's per-line `if (aborted) break` re-reads
the stale `false` forever: (1) scanning with the flag as passed is the
full fold over every line of the file; (2) on a 3-line file whose timer
fires after line 1, the code still counts all 3 entries, whereas (3) the
spec's signal-checking scanner (signal observed set from line index 1 on)
stops with the 1 partial entry. -/
theorem C1_abort_flag_never_observed :
    (∀ (jp : List Char → Option JTree) (kws : List (List Char))
        (lines : List (List Char)),
        processLogFile jp kws lines false = lines.foldl (foldLine jp kws) (initStats kws)) ∧
    (processLogFile jpNone [] linesC1 false).totalEntries = 3 ∧
    (processLogFileSignal jpNone [] linesC1 (fun i => decide (1 ≤ i))).totalEntries = 1 := by
  refine ⟨fun jp kws lines => scanLines_false jp kws lines (initStats kws), ?_, ?_⟩ <;> decide

/-! ## Claim C8: keyword-counting scenario -/

def lineC8 : List Char := "[t] ERROR something timeout happened".toList

def kwsC8 : List (List Char) := ["error".toList, "timeout".toList]

def statsC8 : LogStats := processLogFile jpNone kwsC8 [lineC8] false

/-- C8 counterexample.  On the scenario line the parsed message is
`"something timeout happened"`, the level token `ERROR` is *not* part of
the message, and the keyword counter only matches against the message —
so `keywordMatches["error"]` is 0, not the 1 the claim states. -/
theorem C8_keyword_error_not_counted :
    lookupCount statsC8.keywordMatches "error".toList = 0 ∧
    lookupCount statsC8.keywordMatches "error".toList ≠ 1 := by
  decide

/-- C8 amended.  The scenario yields `totalEntries = 1`,
`errorCount = 1` (level comparison is case-insensitive), and
`keywordMatches = error: 0, timeout: 1`: each keyword counter increments
only when the keyword is a case-insensitive substring of the *message*,
which here contains `"timeout"` but not `"error"`. -/
theorem C8_scenario_counts :
    statsC8.totalEntries = 1 ∧ statsC8.errorCount = 1 ∧
    lookupCount statsC8.keywordMatches "error".toList = 0 ∧
    lookupCount statsC8.keywordMatches "timeout".toList = 1 := by
  decide

/-! ## Claims C4 and C5: retrieval retries, backoff, zero-byte files -/

/-- C4 counterexample.  A retrieval whose every attempt yields a
zero-byte file: the `"Downloaded file is empty (0 bytes)"` error is
thrown inside the retry `try`, so the loop *retries* it like any network
error — 3 attempts and 2 backoff waits are consumed, refuting
"the zero-byte result does not consume further retrieval attempts". -/
theorem C4_zero_byte_retried :
    downloadFile (fun _ => .ok []) =
      (.error ("Failed to download file after 3 attempts: Downloaded file is empty (0 bytes)".toList),
        3, [2000, 4000]) := by
  decide

/-- C4 amended.  A zero-byte fetch is converted into an attempt failure
and retried with backoff, counted toward the 3-attempt budget: after a
zero-byte first attempt at least a second attempt is made and a 2000 ms
backoff wait happens; if every attempt is zero-byte the job fails only
after all 3 attempts, with the aggregated retrieval error naming the
empty-file cause. -/
theorem C4_zero_byte_consumes_budget (A : Nat → Except (List Char) (List Char))
    (h0 : A 0 = .ok []) :
    2 ≤ (downloadFile A).2.1 ∧ (downloadFile A).2.2.head? = some 2000 ∧
    ((∀ i, A i = .ok []) →
      downloadFile A =
        (.error ("Failed to download file after 3 attempts: Downloaded file is empty (0 bytes)".toList),
          3, [2000, 4000])) := by
  refine ⟨?_, ?_, ?_⟩
  · have hp := downloadLoop_attempts_pos A 3 1 1
    rw [downloadFile, downloadLoop_succ_eq, h0]
    simp only [List.length_nil, if_pos rfl]
    simpa using hp
  · rw [downloadFile, downloadLoop_succ_eq, h0]
    simp
  · intro hall
    simp only [downloadFile, downloadLoop, hall 0, hall 1, hall 2]
    decide

/-- C4 witness. -/
theorem C4_zero_byte_consumes_budget_witness :
    (fun _ : Nat => (Except.ok [] : Except (List Char) (List Char))) 0 = .ok [] ∧
      2 ≤ (downloadFile (fun _ => .ok [])).2.1 :=
  ⟨rfl, (C4_zero_byte_consumes_budget (fun _ => .ok []) rfl).1⟩

/-- The attempt sequence of the spec's retry scenario: two failures, then
a successful download. -/
def attemptsC5 : Nat → Except (List Char) (List Char) := fun i =>
  if i = 0 then .error "network error A".toList
  else if i = 1 then .error "network error B".toList
  else .ok "some log data".toList

/-- C5.  `downloadFile` makes at most 3 attempts; the only possible
backoff-wait sequences are `[]`, `[2000]` and `[2000, 4000]` ms
(`1000 * 2^k` after the `k`-th failed attempt); a mock failing twice then
succeeding performs exactly 3 attempts with exactly the 2 waits 2000 ms
and 4000 ms and returns the content; and on exhausting all attempts the
single aggregated error names the last underlying cause. -/
theorem C5_retry_backoff :
    (∀ A : Nat → Except (List Char) (List Char), (downloadFile A).2.1 ≤ 3) ∧
    (∀ A : Nat → Except (List Char) (List Char),
      (downloadFile A).2.2 = [] ∨ (downloadFile A).2.2 = [2000] ∨
        (downloadFile A).2.2 = [2000, 4000]) ∧
    (∀ (A : Nat → Except (List Char) (List Char)) (e1 e2 c : List Char),
      A 0 = .error e1 → A 1 = .error e2 → A 2 = .ok c → c ≠ [] →
      downloadFile A = (.ok c, 3, [2000, 4000])) ∧
    (∀ (A : Nat → Except (List Char) (List Char)) (e0 e1 e2 : List Char),
      A 0 = .error e0 → A 1 = .error e1 → A 2 = .error e2 →
      downloadFile A =
        (.error ("Failed to download file after 3 attempts: ".toList ++ e2), 3, [2000, 4000])) := by
  refine ⟨fun A => downloadLoop_attempts_le A 3 3 0, downloadFile_waits_shape, ?_, ?_⟩
  · intro A e1 e2 c h0 h1 h2 hc
    simp [downloadFile, downloadLoop, h0, h1, h2, hc]
  · intro A e0 e1 e2 h0 h1 h2
    have h3 : (toString 3).data = ['3'] := by decide
    simp [downloadFile, downloadLoop, h0, h1, h2, h3]

/-- C5 witness. -/
theorem C5_retry_backoff_witness :
    attemptsC5 0 = .error "network error A".toList ∧
    attemptsC5 2 = .ok "some log data".toList ∧
    downloadFile attemptsC5 = (.ok "some log data".toList, 3, [2000, 4000]) :=
  ⟨rfl, rfl,
    C5_retry_backoff.2.2.1 attemptsC5 _ _ _ rfl rfl rfl (by decide)⟩

/-! ## Claims C2 and C3: persistence failures and scratch-file cleanup -/

/-- `true` exactly on the `failed` outcome. -/
def Outcome.isFailed : Outcome → Bool
  | .failed _ => true
  | .completed _ => false

/-- A benign environment: one small downloadable file, all writes
succeed. -/
def envOk : RunEnv :=
  { kws := []
    jp := jpNone
    db1 := .ok ()
    pub1 := .ok
    attempts := fun _ => .ok "[t] INFO ok".toList
    db10 := .ok ()
    pub10 := .ok
    dbStats := .ok ()
    pubStats := .ok
    abortedAtScanCall := false
    unlinkOk := true }

/-- C2 counterexample.  Two runs identical except that the durable-store
write of the first `processing` status update fails in one of them: the
persistence failure flips the job's terminal outcome from completed to
failed, refuting "does not alter the in-memory job outcome / recovered
silently". -/
theorem C2_persistence_failure_fails_job :
    (runJob { envOk with db1 := .error "db write failed".toList }).outcome
        = .failed "db write failed".toList ∧
    (runJob { envOk with db1 := .error "db write failed".toList }).outcome.isFailed = true ∧
    (runJob envOk).outcome.isFailed = false := by
  refine ⟨rfl, rfl, ?_⟩
  decide

/-- C2 amended.  `updateJobStatus`/`updateJobStats` swallow *publish*
(notification) failures, but a failed durable-store write is logged and
re-thrown, and the handler's catch block turns it into the job's terminal
`Failed` outcome carrying the persistence error's message — so a
persistence failure during a status update terminates the job instead of
being recovered silently (shown for the 1%-status write and for the
10%-status write after a successful non-empty download). -/
theorem C2_persistence_policy :
    (∀ pub, updateJobStatus (.ok ()) pub = .ok () ∧ updateJobStats (.ok ()) pub = .ok ()) ∧
    (∀ (env : RunEnv) (e : List Char),
      env.db1 = .error e → (runJob env).outcome = .failed e) ∧
    (∀ (env : RunEnv) (e content : List Char),
      env.db1 = .ok () → (downloadFile env.attempts).1 = .ok content → content ≠ [] →
      env.db10 = .error e → (runJob env).outcome = .failed e) := by
  refine ⟨fun pub => ⟨rfl, rfl⟩, ?_, ?_⟩
  · intro env e h
    simp [runJob, updateJobStatus, h]
  · intro env e content h1 hdl hc h10
    simp [runJob, updateJobStatus, h1, hdl, hc, h10]

/-- C2 witness. -/
theorem C2_persistence_policy_witness :
    ({ envOk with db1 := .error "db down".toList } : RunEnv).db1 = .error "db down".toList ∧
    (runJob { envOk with db1 := .error "db down".toList }).outcome = .failed "db down".toList :=
  ⟨rfl, C2_persistence_policy.2.1 { envOk with db1 := .error "db down".toList } _ rfl⟩

/-- C3 counterexample.  A run in which the scratch file is created (the
download succeeds) and the job then fails (final stats write throws): the
handler's catch path runs `cleanupJob`, which only clears the safety
timer and persists the `failed` status — it never deletes the scratch
file, refuting "deleted on both the success path and the failure path". -/
theorem C3_no_cleanup_on_failure_path :
    runJob { envOk with dbStats := .error "stats write failed".toList } =
      { outcome := .failed "stats write failed".toList
        tempCreated := true
        deleteAttempted := false } := by
  decide

/-- C3 amended.  The scratch file is deleted on the *success* path only
(after the final stats write; a deletion failure is caught and logged and
never re-throws, so it cannot change the outcome — `runJob` does not
depend on `unlinkOk` at all); on every failure path after the file was
created, `cleanupJob` does not delete it. -/
theorem C3_cleanup_success_path_only :
    (∀ (env : RunEnv) (content : List Char),
      env.db1 = .ok () → (downloadFile env.attempts).1 = .ok content → content ≠ [] →
      env.db10 = .ok () → env.dbStats = .ok () →
      (runJob env).deleteAttempted = true ∧
        (runJob env).outcome =
          .completed (processLogFile env.jp env.kws (splitLines content) env.abortedAtScanCall)) ∧
    (∀ (env : RunEnv) (b : Bool), runJob { env with unlinkOk := b } = runJob env) ∧
    (∀ (env : RunEnv) (e content : List Char),
      env.db1 = .ok () → (downloadFile env.attempts).1 = .ok content → content ≠ [] →
      env.db10 = .ok () → env.dbStats = .error e →
      runJob env = { outcome := .failed e, tempCreated := true, deleteAttempted := false }) := by
  refine ⟨?_, ?_, ?_⟩
  · intro env content h1 hdl hc h10 hs
    simp [runJob, updateJobStatus, updateJobStats, h1, hdl, hc, h10, hs]
  · intro env b
    simp [runJob]
  · intro env e content h1 hdl hc h10 hs
    simp [runJob, updateJobStatus, updateJobStats, h1, hdl, hc, h10, hs]

/-- C3 witness. -/
theorem C3_cleanup_success_path_only_witness :
    envOk.db1 = .ok () ∧ envOk.dbStats = .ok () ∧
    (runJob envOk).deleteAttempted = true :=
  ⟨rfl, rfl,
    (C3_cleanup_success_path_only.1 envOk "[t] INFO ok".toList rfl (by decide) (by decide)
      rfl rfl).1⟩

/-! ## Claim C6: `isIPAddress` -/

/-- A decimal digit is not a whitespace character. -/
theorem not_ws_of_digit {c : Char} (h : c.isDigit = true) : isWsJS c = false := by
  revert h
  simp only [isWsJS, Bool.or_eq_false_iff, decide_eq_false_iff_not]
  intro h
  refine ⟨⟨⟨⟨⟨?_, ?_⟩, ?_⟩, ?_⟩, ?_⟩, ?_⟩ <;> rintro rfl <;> revert h <;> decide

/-- `takeWhile` keeps a list all of whose elements satisfy the
predicate. -/
theorem takeWhile_all {α : Type} {p : α → Bool} :
    ∀ l : List α, l.all p = true → l.takeWhile p = l := by
  intro l
  induction l with
  | nil => intro; rfl
  | cons c r ih =>
    intro h
    simp only [List.all_cons, Bool.and_eq_true] at h
    simp [List.takeWhile_cons, h.1, ih h.2]

/-- On a nonempty all-digit string, `parseInt(s, 10)` returns exactly the
string's decimal value. -/
theorem parseIntJS_digits {p : List Char} (hne : p ≠ [])
    (hd : p.all Char.isDigit = true) : parseIntJS p = some (digitsToNat p) := by
  obtain ⟨c, r, rfl⟩ := List.exists_cons_of_ne_nil hne
  have hc : c.isDigit = true := by
    simp only [List.all_cons, Bool.and_eq_true] at hd
    exact hd.1
  have hcm : c ≠ '-' := by rintro rfl; revert hc; decide
  have hcp : c ≠ '+' := by rintro rfl; revert hc; decide
  have hdrop : (c :: r).dropWhile isWsJS = c :: r := by
    simp [List.dropWhile_cons, not_ws_of_digit hc]
  have htake : (c :: r).takeWhile Char.isDigit = c :: r := takeWhile_all _ hd
  simp only [parseIntJS, hdrop, List.head?_cons, htake]
  have hne2 : ¬(some c = some '-' ∨ some c = some '+') := by
    rintro (h | h) <;> simp_all
  rw [if_neg hne2]
  rw [htake]
  have : ¬(c :: r).isEmpty = true := by simp
  simp only [this, if_false]
  have hnegf : (decide (some c = some '-')) = false := by simp [hcm]
  simp [hnegf]
  intro h
  exact absurd h hcm

/-- C6 counterexample.  `parseInt("1a", 10)` is `1`, not `NaN`, so the
non-numeric segment `"1a"` is accepted and `isIPAddress("1a.2.3.4")`
returns `true`, refuting "returns false for … non-numeric segments". -/
theorem C6_junk_segment_accepted :
    isIPAddress "1a.2.3.4".toList = true ∧
    "1a".toList.all Char.isDigit = false ∧
    isDottedQuad "1a.2.3.4".toList = false := by
  decide

/-- C6 amended.  `isIPAddress` returns true for every valid dotted-quad
string; it returns false for any string with a wrong segment count and
for any string with a segment whose `parseInt(·, 10)` value is `NaN` or
outside 0–255 — but a segment with a parsable in-range prefix followed by
trailing junk (such as `"1a"`) is accepted, so not every non-numeric
segment is rejected. -/
theorem C6_isIPAddress_characterisation :
    (∀ cs : List Char, isDottedQuad cs = true → isIPAddress cs = true) ∧
    (∀ cs : List Char, (splitOnDot cs).length ≠ 4 → isIPAddress cs = false) ∧
    (∀ (cs p : List Char), p ∈ splitOnDot cs → parseIntJS p = none →
      isIPAddress cs = false) ∧
    (∀ (cs p : List Char) (n : Int), p ∈ splitOnDot cs → parseIntJS p = some n →
      (n < 0 ∨ 255 < n) → isIPAddress cs = false) := by
  refine ⟨?_, ?_, ?_, ?_⟩
  · intro cs h
    simp only [isDottedQuad, Bool.and_eq_true, decide_eq_true_eq] at h
    obtain ⟨hlen, hall⟩ := h
    simp only [isIPAddress, Bool.and_eq_true, decide_eq_true_eq]
    refine ⟨hlen, ?_⟩
    rw [List.all_eq_true] at hall ⊢
    intro p hp
    have hprops := hall p hp
    simp only [Bool.and_eq_true, Bool.not_eq_true', decide_eq_true_eq] at hprops
    have hne : p ≠ [] := by
      intro hnil
      subst hnil
      simp at hprops
    have hdig : p.all Char.isDigit = true := hprops.1.2
    have hle : digitsToNat p ≤ 255 := hprops.2
    rw [parseIntJS_digits hne hdig]
    show decide ((0 : Int) ≤ (digitsToNat p : Int) ∧ (digitsToNat p : Int) ≤ 255) = true
    rw [decide_eq_true_eq]
    exact ⟨Int.ofNat_nonneg _, by exact_mod_cast hle⟩
  · intro cs h
    simp only [isIPAddress]
    rw [Bool.and_eq_false_iff]
    left
    simp [h]
  · intro cs p hp hnone
    simp only [isIPAddress]
    rw [Bool.and_eq_false_iff]
    right
    rw [List.all_eq_false]
    exact ⟨p, hp, by simp [hnone]⟩
  · intro cs p n hp hn hout
    simp only [isIPAddress]
    rw [Bool.and_eq_false_iff]
    right
    rw [List.all_eq_false]
    refine ⟨p, hp, ?_⟩
    simp only [hn, Bool.not_eq_true, decide_eq_false_iff_not]
    omega

/-- C6 witness. -/
theorem C6_isIPAddress_characterisation_witness :
    isDottedQuad "10.0.0.1".toList = true ∧ isIPAddress "10.0.0.1".toList = true :=
  ⟨by decide, C6_isIPAddress_characterisation.1 "10.0.0.1".toList (by decide)⟩

/-! ## Claims C9 and C10: accumulator invariants -/

/-- The §3 Statistics invariant for the keyword counters: errors never
exceed entries, and every key of `keywordMatches` is a configured
keyword. -/
@[reducible]
def kwInv (kws : List (List Char)) (s : LogStats) : Prop :=
  s.errorCount ≤ s.totalEntries ∧ ∀ k ∈ s.keywordMatches.map Prod.fst, k ∈ kws

/-- Every key of `ipAddresses` is accepted by `isIPAddress`. -/
@[reducible]
def ipInv (s : LogStats) : Prop :=
  ∀ k ∈ s.ipAddresses.map Prod.fst, isIPAddress k = true

/-- `incExisting` never changes the key list. -/
theorem incExisting_keys (m : List (List Char × Nat)) (k : List Char) :
    (incExisting m k).map Prod.fst = m.map Prod.fst := by
  induction m with
  | nil => rfl
  | cons p r ih =>
    simp only [incExisting, List.map_cons] at ih ⊢
    rw [ih]
    congr 1
    split <;> rfl

/-- A key of `bumpCount m k` is a key of `m` or is `k` itself. -/
theorem bumpCount_keys (m : List (List Char × Nat)) (k k' : List Char)
    (h : k' ∈ (bumpCount m k).map Prod.fst) : k' ∈ m.map Prod.fst ∨ k' = k := by
  by_cases hf : (m.find? (fun p => p.1 = k)).isSome
  · left
    have : bumpCount m k = m.map (fun p => if p.1 = k then (p.1, p.2 + 1) else p) := by
      simp [bumpCount, hf]
    rw [this] at h
    rw [List.map_map] at h
    obtain ⟨p, hp, hpe⟩ := List.mem_map.mp h
    refine List.mem_map.mpr ⟨p, hp, ?_⟩
    simp only [Function.comp_apply] at hpe
    rw [← hpe]
    split <;> rfl
  · have : bumpCount m k = m ++ [(k, 1)] := by simp [bumpCount, hf]
    rw [this, List.map_append, List.mem_append] at h
    rcases h with h | h
    · exact Or.inl h
    · simp only [List.map_cons, List.map_nil, List.mem_singleton] at h
      exact Or.inr h

/-- The guarded IP bump of both extraction routines preserves `ipInv`. -/
theorem bump_guard_ipInv (s : LogStats) (v : List Char) (h : ipInv s) :
    ipInv (if isIPAddress v then { s with ipAddresses := bumpCount s.ipAddresses v } else s) := by
  split
  · intro k hk
    rcases bumpCount_keys s.ipAddresses v k hk with hk' | rfl
    · exact h k hk'
    · assumption
  · exact h

/-- `extractIPsVal` leaves every field except `ipAddresses` unchanged. -/
theorem extractIPsVal_fields (t : JTree) : ∀ s : LogStats,
    (extractIPsVal s t).totalEntries = s.totalEntries ∧
    (extractIPsVal s t).errorCount = s.errorCount ∧
    (extractIPsVal s t).keywordMatches = s.keywordMatches := by
  induction t with
  | leafStr v => intro s; simp only [extractIPsVal]; split <;> simp
  | leafOther => intro s; exact ⟨rfl, rfl, rfl⟩
  | objNil => intro s; exact ⟨rfl, rfl, rfl⟩
  | objCons v rest ihv ihr =>
    intro s
    simp only [extractIPsVal]
    obtain ⟨h1, h2, h3⟩ := ihr (extractIPsVal s v)
    obtain ⟨g1, g2, g3⟩ := ihv s
    exact ⟨h1.trans g1, h2.trans g2, h3.trans g3⟩

/-- `extractIPsVal` only ever adds keys that pass `isIPAddress`. -/
theorem extractIPsVal_ipInv (t : JTree) : ∀ s : LogStats,
    ipInv s → ipInv (extractIPsVal s t) := by
  induction t with
  | leafStr v => intro s h; exact bump_guard_ipInv s v h
  | leafOther => intro s h; exact h
  | objNil => intro s h; exact h
  | objCons v rest ihv ihr => intro s h; exact ihr _ (ihv s h)

/-- The fold of `extractIPsFromText` leaves every field except
`ipAddresses` unchanged. -/
theorem foldl_bumpIP_fields (l : List (List Char)) : ∀ s : LogStats,
    ((l.foldl (fun acc ip =>
        if isIPAddress ip then { acc with ipAddresses := bumpCount acc.ipAddresses ip }
        else acc) s)).totalEntries = s.totalEntries ∧
    ((l.foldl (fun acc ip =>
        if isIPAddress ip then { acc with ipAddresses := bumpCount acc.ipAddresses ip }
        else acc) s)).errorCount = s.errorCount ∧
    ((l.foldl (fun acc ip =>
        if isIPAddress ip then { acc with ipAddresses := bumpCount acc.ipAddresses ip }
        else acc) s)).keywordMatches = s.keywordMatches := by
  induction l with
  | nil => intro s; exact ⟨rfl, rfl, rfl⟩
  | cons ip r ih =>
    intro s
    simp only [List.foldl_cons]
    obtain ⟨h1, h2, h3⟩ := ih (if isIPAddress ip then
      { s with ipAddresses := bumpCount s.ipAddresses ip } else s)
    refine ⟨h1.trans ?_, h2.trans ?_, h3.trans ?_⟩ <;> split <;> rfl

/-- The fold of `extractIPsFromText` preserves `ipInv`. -/
theorem foldl_bumpIP_ipInv (l : List (List Char)) : ∀ s : LogStats,
    ipInv s →
    ipInv (l.foldl (fun acc ip =>
      if isIPAddress ip then { acc with ipAddresses := bumpCount acc.ipAddresses ip }
      else acc) s) := by
  induction l with
  | nil => intro s h; exact h
  | cons ip r ih =>
    intro s h
    simp only [List.foldl_cons]
    exact ih _ (bump_guard_ipInv s ip h)

/-- The keyword fold of `foldLine` leaves entry counters and the IP map
unchanged and does not change the keyword key list. -/
theorem foldl_kw_fields (m : List Char) (kws : List (List Char)) : ∀ s : LogStats,
    ((kws.foldl (fun acc kw =>
        if hasSub kw (toLowerStr m) then
          { acc with keywordMatches := incExisting acc.keywordMatches kw }
        else acc) s)).totalEntries = s.totalEntries ∧
    ((kws.foldl (fun acc kw =>
        if hasSub kw (toLowerStr m) then
          { acc with keywordMatches := incExisting acc.keywordMatches kw }
        else acc) s)).errorCount = s.errorCount ∧
    ((kws.foldl (fun acc kw =>
        if hasSub kw (toLowerStr m) then
          { acc with keywordMatches := incExisting acc.keywordMatches kw }
        else acc) s)).ipAddresses = s.ipAddresses ∧
    ((kws.foldl (fun acc kw =>
        if hasSub kw (toLowerStr m) then
          { acc with keywordMatches := incExisting acc.keywordMatches kw }
        else acc) s)).keywordMatches.map Prod.fst = s.keywordMatches.map Prod.fst := by
  induction kws with
  | nil => intro s; exact ⟨rfl, rfl, rfl, rfl⟩
  | cons kw r ih =>
    intro s
    simp only [List.foldl_cons]
    obtain ⟨h1, h2, h3, h4⟩ := ih (if hasSub kw (toLowerStr m) then
      { s with keywordMatches := incExisting s.keywordMatches kw } else s)
    refine ⟨h1.trans ?_, h2.trans ?_, h3.trans ?_, h4.trans ?_⟩
    · split <;> rfl
    · split <;> rfl
    · split <;> rfl
    · split
      · exact incExisting_keys _ _
      · rfl

/-- One line of the scan preserves the keyword invariant. -/
theorem foldLine_kwInv (jp : List Char → Option JTree) (kws : List (List Char))
    (s : LogStats) (line : List Char) (h : kwInv kws s) :
    kwInv kws (foldLine jp kws s line) := by
  obtain ⟨hec, hkeys⟩ := h
  simp only [foldLine]
  match parseLine jp line with
  | none => exact ⟨hec, hkeys⟩
  | some parsed =>
    simp only
    set s1 : LogStats := { s with totalEntries := s.totalEntries + 1 } with hs1
    set s2 := if toLowerStr parsed.level = "error".toList then
      { s1 with errorCount := s1.errorCount + 1 } else s1 with hs2
    have h2 : s2.errorCount ≤ s2.totalEntries ∧
        s2.keywordMatches.map Prod.fst = s.keywordMatches.map Prod.fst := by
      rw [hs2]
      split <;> simp [hs1] <;> omega
    set s3 := kws.foldl (fun acc kw =>
      if hasSub kw (toLowerStr parsed.message) then
        { acc with keywordMatches := incExisting acc.keywordMatches kw }
      else acc) s2 with hs3
    obtain ⟨f1, f2, _, f4⟩ := foldl_kw_fields parsed.message kws s2
    have h3 : s3.errorCount ≤ s3.totalEntries ∧
        s3.keywordMatches.map Prod.fst = s.keywordMatches.map Prod.fst := by
      rw [hs3, f1, f2, f4]
      exact ⟨h2.1, h2.2⟩
    set s4 := match parsed.jsonPayload with
      | some t => if t.isObj then extractIPsVal s3 t else s3
      | none => s3 with hs4
    have h4 : s4.errorCount ≤ s4.totalEntries ∧
        s4.keywordMatches.map Prod.fst = s.keywordMatches.map Prod.fst := by
      rw [hs4]
      match parsed.jsonPayload with
      | none => exact h3
      | some t =>
        simp only
        split
        · obtain ⟨e1, e2, e3⟩ := extractIPsVal_fields t s3
          rw [e1, e2, e3]
          exact h3
        · exact h3
    obtain ⟨g1, g2, g3⟩ := foldl_bumpIP_fields (ipScan parsed.message) s4
    refine ⟨?_, ?_⟩
    · simp only [extractIPsFromText]
      rw [g1, g2]
      exact h4.1
    · intro k hk
      simp only [extractIPsFromText] at hk
      rw [g3, h4.2] at hk
      exact hkeys k hk

/-- One line of the scan preserves the IP-key invariant. -/
theorem foldLine_ipInv (jp : List Char → Option JTree) (kws : List (List Char))
    (s : LogStats) (line : List Char) (h : ipInv s) :
    ipInv (foldLine jp kws s line) := by
  simp only [foldLine]
  match parseLine jp line with
  | none => exact h
  | some parsed =>
    simp only
    have h1 : ipInv { s with totalEntries := s.totalEntries + 1 } := h
    have h2 : ipInv (if toLowerStr parsed.level = "error".toList then
        { { s with totalEntries := s.totalEntries + 1 } with
            errorCount := s.errorCount + 1 }
        else { s with totalEntries := s.totalEntries + 1 }) := by
      split <;> exact h
    set s2 := if toLowerStr parsed.level = "error".toList then
      { { s with totalEntries := s.totalEntries + 1 } with
          errorCount := s.errorCount + 1 }
      else { s with totalEntries := s.totalEntries + 1 } with hs2
    set s3 := kws.foldl (fun acc kw =>
      if hasSub kw (toLowerStr parsed.message) then
        { acc with keywordMatches := incExisting acc.keywordMatches kw }
      else acc) s2 with hs3
    have h3 : ipInv s3 := by
      obtain ⟨_, _, f3, _⟩ := foldl_kw_fields parsed.message kws s2
      intro k hk
      rw [hs3] at hk
      rw [f3] at hk
      exact h2 k hk
    have h4 : ipInv (match parsed.jsonPayload with
        | some t => if t.isObj then extractIPsVal s3 t else s3
        | none => s3) := by
      match parsed.jsonPayload with
      | none => exact h3
      | some t =>
        simp only
        split
        · exact extractIPsVal_ipInv t s3 h3
        · exact h3
    exact foldl_bumpIP_ipInv _ _ h4

/-- The scan loop preserves both invariants. -/
theorem scanLines_inv (jp : List Char → Option JTree) (kws : List (List Char))
    (ab : Bool) : ∀ (lines : List (List Char)) (s : LogStats),
    (kwInv kws s → kwInv kws (scanLines jp kws ab lines s)) ∧
    (ipInv s → ipInv (scanLines jp kws ab lines s)) := by
  intro lines
  induction lines with
  | nil => intro s; exact ⟨id, id⟩
  | cons l r ih =>
    intro s
    simp only [scanLines]
    split
    · exact ⟨id, id⟩
    · exact ⟨fun h => (ih _).1 (foldLine_kwInv jp kws s l h),
        fun h => (ih _).2 (foldLine_ipInv jp kws s l h)⟩

/-- The keyword map of `initStats` has exactly the configured keywords as
keys, each mapped to 0. -/
theorem initStats_keys (kws : List (List Char)) :
    (initStats kws).keywordMatches.map Prod.fst = kws := by
  simp only [initStats, List.map_map]
  have h : (Prod.fst ∘ fun k : List Char => (k, (0 : Nat))) = id := rfl
  rw [h, List.map_id]

/-- C9.  `keywordMatches` starts with every configured keyword mapped to
0; the fold preserves the invariant `errorCount ≤ totalEntries` together
with "every keyword key is configured"; and any scan (with any abort
flag) yields statistics satisfying the invariant. -/
theorem C9_statistics_invariant :
    (∀ (kws : List (List Char)) (kw : List Char), kw ∈ kws →
      lookupCount (initStats kws).keywordMatches kw = 0) ∧
    (∀ (kws : List (List Char)) (jp : List Char → Option JTree) (s : LogStats)
        (line : List Char), kwInv kws s → kwInv kws (foldLine jp kws s line)) ∧
    (∀ (kws : List (List Char)) (jp : List Char → Option JTree)
        (lines : List (List Char)) (ab : Bool),
      kwInv kws (processLogFile jp kws lines ab)) := by
  refine ⟨?_, ?_, ?_⟩
  · intro kws kw
    induction kws with
    | nil => intro h; cases h
    | cons k r ih =>
      intro h
      by_cases hk : k = kw
      · subst hk
        simp only [lookupCount, initStats, List.map_cons]
        rw [List.find?_cons_of_pos _ (by simp)]
      · have h' : kw ∈ r := by
          rcases List.mem_cons.mp h with h'' | h''
          · exact absurd h''.symm hk
          · exact h''
        have hr := ih h'
        simp only [lookupCount, initStats, List.map_cons] at hr ⊢
        rw [List.find?_cons_of_neg _ (by simpa using hk)]
        exact hr
  · exact fun kws jp s line h => foldLine_kwInv jp kws s line h
  · intro kws jp lines ab
    refine (scanLines_inv jp kws ab lines (initStats kws)).1 ?_
    refine ⟨le_rfl, ?_⟩
    intro k hk
    rwa [initStats_keys] at hk

/-- C9 witness. -/
theorem C9_statistics_invariant_witness :
    kwInv kwsC8 (initStats kwsC8) ∧
    kwInv kwsC8 (foldLine jpNone kwsC8 (initStats kwsC8) lineC8) :=
  ⟨by decide, C9_statistics_invariant.2.1 kwsC8 jpNone (initStats kwsC8) lineC8 (by decide)⟩

/-- C10.  Both IP-extraction routines check `isIPAddress` before bumping
a counter, so folding preserves, and every scan establishes, the
invariant that every key of `ipAddresses` is accepted by
`isIPAddress`. -/
theorem C10_ip_keys_accepted :
    (∀ (jp : List Char → Option JTree) (kws : List (List Char)) (s : LogStats)
        (line : List Char), ipInv s → ipInv (foldLine jp kws s line)) ∧
    (∀ (jp : List Char → Option JTree) (kws : List (List Char))
        (lines : List (List Char)) (ab : Bool),
      ipInv (processLogFile jp kws lines ab)) := by
  refine ⟨fun jp kws s line h => foldLine_ipInv jp kws s line h, ?_⟩
  intro jp kws lines ab
  refine (scanLines_inv jp kws ab lines (initStats kws)).2 ?_
  intro k hk
  simp [initStats] at hk

/-- C10 witness: a line whose message contains an IP address. -/
theorem C10_ip_keys_accepted_witness :
    ipInv (initStats []) ∧
    ipInv (foldLine jpNone [] (initStats []) "[t] INFO from 10.0.0.1".toList) :=
  ⟨by decide, C10_ip_keys_accepted.1 jpNone [] (initStats [])
    "[t] INFO from 10.0.0.1".toList (by decide)⟩

/-! ## Claim C7: the line grammar -/

/-- A line of the spec grammar `"[T] LEVEL message"`, optionally followed
by a single space and a json payload: `"[T] LEVEL message {json}"`. -/
def mkLine (T L msg : List Char) (json : Option (List Char)) : List Char :=
  '[' :: (T ++ ']' :: ' ' :: (L ++ ' ' :: (msg ++
    match json with
    | none => []
    | some j => ' ' :: j)))

/-- A word character (`\w`) is not a whitespace character (`\s`). -/
theorem not_ws_of_word {c : Char} (h : isWordCh c = true) : isWsJS c = false := by
  cases hws : isWsJS c
  · rfl
  · exfalso
    simp only [isWsJS, Bool.or_eq_true, decide_eq_true_eq] at hws
    rcases hws with ((((h1 | h1) | h1) | h1) | h1) | h1 <;> subst h1 <;> revert h <;> decide

/-- `takeWhile`/`dropWhile` on `xs ++ ys` when all of `xs` satisfies the
predicate and the head of `ys` (if any) does not. -/
theorem takeWhile_append_all {α : Type} (p : α → Bool) :
    ∀ (xs ys : List α), xs.all p = true → (∀ c, ys.head? = some c → p c = false) →
      (xs ++ ys).takeWhile p = xs ∧ (xs ++ ys).dropWhile p = ys := by
  intro xs
  induction xs with
  | nil =>
    intro ys _ hy
    cases ys with
    | nil => exact ⟨rfl, rfl⟩
    | cons c r =>
      have hc := hy c rfl
      constructor
      · simp [List.takeWhile_cons, hc]
      · simp [List.dropWhile_cons, hc]
  | cons x xs ih =>
    intro ys hx hy
    simp only [List.all_cons, Bool.and_eq_true] at hx
    obtain ⟨h1, h2⟩ := ih ys hx.2 hy
    constructor
    · simp [List.takeWhile_cons, hx.1, h1]
    · simp [List.dropWhile_cons, hx.1, h2]

/-- Appending on the right, when `dropWhile` already stops inside the
left list, changes neither the stop point nor the prefix. -/
theorem dropWhile_append_cons {α : Type} {p : α → Bool} :
    ∀ (l : List α) (e : α) (rest ys : List α), l.dropWhile p = e :: rest →
      (l ++ ys).dropWhile p = e :: (rest ++ ys) ∧
        (l ++ ys).takeWhile p = l.takeWhile p := by
  intro l
  induction l with
  | nil => intro e rest ys h; cases h
  | cons x xs ih =>
    intro e rest ys h
    rw [List.dropWhile_cons] at h
    by_cases hx : p x = true
    · rw [if_pos hx] at h
      obtain ⟨h1, h2⟩ := ih e rest ys h
      constructor
      · simp [List.dropWhile_cons, hx, h1]
      · simp [List.takeWhile_cons, hx, h2]
    · rw [if_neg hx] at h
      injection h with h1 h2
      subst h1
      subst h2
      constructor
      · simp [List.dropWhile_cons, hx]
      · simp [List.takeWhile_cons, hx]

/-- If the last character of a list fails the predicate, `dropWhile`
cannot exhaust it. -/
theorem dropWhile_ne_nil_of_getLast {p : Char → Bool} (l : List Char) (c : Char)
    (h : l.getLast? = some c) (hc : p c = false) : l.dropWhile p ≠ [] := by
  intro hnil
  have hall := List.dropWhile_eq_nil_iff.mp hnil
  have hmem : c ∈ l := List.mem_of_mem_getLast? h
  rw [hall c hmem] at hc
  cases hc

/-- The optional json group cannot start inside the message: for any
nonempty brace-free chunk whose whitespace run does not reach its end,
`tailOpt` fails, whatever follows. -/
theorem tailOpt_none_msg_suffix (m' sep : List Char)
    (hall : m'.all (fun c => !(c = '{')) = true)
    (hne : m'.dropWhile isWsJS ≠ []) :
    tailOpt (m' ++ sep) = none := by
  obtain ⟨e, rest, he⟩ := List.exists_cons_of_ne_nil hne
  obtain ⟨hdrop, htake⟩ := dropWhile_append_cons m' e rest sep he
  have hmem : e ∈ m' := by
    have : e ∈ m'.dropWhile isWsJS := by rw [he]; exact List.mem_cons_self e rest
    exact (List.dropWhile_sublist isWsJS).subset this
  have hbrace : ¬(e = '{') := by
    have := List.all_eq_true.mp hall e hmem
    simpa using this
  simp only [tailOpt, hdrop, htake]
  by_cases hw : (m'.takeWhile isWsJS).isEmpty
  · rw [if_pos hw]
  · rw [if_neg hw, if_neg]
    rintro ⟨hhead, -⟩
    simp only [List.head?_cons, Option.some_inj] at hhead
    exact hbrace hhead

/-- One-step unfoldings of `tailScan`. -/
theorem tailScan_nil : tailScan [] = some ([], none) := rfl

theorem tailScan_cons (c : Char) (cs : List Char) :
    tailScan (c :: cs) =
      match tailOpt (c :: cs) with
      | some g4 => some ([], some g4)
      | none =>
        if isDotCh c then (tailScan cs).map (fun mg => (c :: mg.1, mg.2)) else none := rfl

/-- `tailOpt` succeeds on the separator + json tail: one space of
whitespace, then `{`, with the final `}` as last character. -/
theorem tailOpt_sep_json (mid : List Char) (hmid : mid.all isDotCh = true) :
    tailOpt (' ' :: ('{' :: (mid ++ ['}']))) = some ('{' :: (mid ++ ['}'])) := by
  have hws1 : isWsJS ' ' = true := by decide
  have hws2 : isWsJS '{' = false := by decide
  have htake : (' ' :: ('{' :: (mid ++ ['}']))).takeWhile isWsJS = [' '] := by
    simp [List.takeWhile_cons, hws1, hws2]
  have hdrop : (' ' :: ('{' :: (mid ++ ['}']))).dropWhile isWsJS
      = '{' :: (mid ++ ['}']) := by
    simp [List.dropWhile_cons, hws1, hws2]
  simp only [tailOpt, htake, hdrop]
  rw [if_neg (by simp), if_pos]
  refine ⟨rfl, ?_, ?_⟩
  · have h2 : '{' :: (mid ++ ['}']) = ('{' :: mid) ++ ['}'] := by simp
    rw [h2, List.getLast?_concat]
  · simp only [List.tail_cons, List.dropLast_concat]
    exact hmid

/-- `tailScan` on a brace-free message with no trailing whitespace and
nothing after it: the whole message is the lazy group, no json group. -/
theorem tailScan_msg_nil :
    ∀ msg : List Char, msg.all (fun c => isDotCh c && !(c = '{')) = true →
      (∀ c, msg.getLast? = some c → isWsJS c = false) →
      tailScan msg = some (msg, none) := by
  intro msg
  induction msg with
  | nil => intro _ _; rfl
  | cons c cs ih =>
    intro hall hlast
    obtain ⟨d, hd⟩ : ∃ d, (c :: cs).getLast? = some d := by
      cases hgl : (c :: cs).getLast? with
      | none => exact absurd (List.getLast?_eq_none_iff.mp hgl) (by simp)
      | some d => exact ⟨d, rfl⟩
    have hdws : isWsJS d = false := hlast d hd
    have hne : (c :: cs).dropWhile isWsJS ≠ [] :=
      dropWhile_ne_nil_of_getLast _ d hd hdws
    have hallb : (c :: cs).all (fun c => !(c = '{')) = true := by
      rw [List.all_eq_true] at hall ⊢
      intro x hx
      have hx2 := hall x hx
      simp only [Bool.and_eq_true] at hx2
      exact hx2.2
    have hopt : tailOpt (c :: cs) = none := by
      have h0 := tailOpt_none_msg_suffix (c :: cs) [] hallb hne
      simpa using h0
    simp only [List.all_cons, Bool.and_eq_true] at hall
    rw [tailScan_cons]
    cases cs with
    | nil =>
      simp only [hopt, hall.1.1, if_true, tailScan_nil]
      rfl
    | cons c2 cs2 =>
      have hrec := ih hall.2
        (fun x hx => hlast x (by rwa [List.getLast?_cons_cons]))
      simp only [hopt, hall.1.1, if_true, hrec]
      rfl

/-- `tailScan` on a brace-free message followed by a space and a json
group: the message is the lazy group and the json group is everything
from the `{` to the end. -/
theorem tailScan_msg_json (mid : List Char) (hmid : mid.all isDotCh = true) :
    ∀ msg : List Char, msg.all (fun c => isDotCh c && !(c = '{')) = true →
      (∀ c, msg.getLast? = some c → isWsJS c = false) →
      tailScan (msg ++ ' ' :: ('{' :: (mid ++ ['}'])))
        = some (msg, some ('{' :: (mid ++ ['}']))) := by
  intro msg
  induction msg with
  | nil =>
    intro _ _
    rw [List.nil_append, tailScan_cons, tailOpt_sep_json mid hmid]
  | cons c cs ih =>
    intro hall hlast
    obtain ⟨d, hd⟩ : ∃ d, (c :: cs).getLast? = some d := by
      cases hgl : (c :: cs).getLast? with
      | none => exact absurd (List.getLast?_eq_none_iff.mp hgl) (by simp)
      | some d => exact ⟨d, rfl⟩
    have hdws : isWsJS d = false := hlast d hd
    have hne : (c :: cs).dropWhile isWsJS ≠ [] :=
      dropWhile_ne_nil_of_getLast _ d hd hdws
    have hallb : (c :: cs).all (fun c => !(c = '{')) = true := by
      rw [List.all_eq_true] at hall ⊢
      intro x hx
      have hx2 := hall x hx
      simp only [Bool.and_eq_true] at hx2
      exact hx2.2
    have hopt : tailOpt ((c :: cs) ++ ' ' :: ('{' :: (mid ++ ['}']))) = none :=
      tailOpt_none_msg_suffix (c :: cs) _ hallb hne
    simp only [List.all_cons, Bool.and_eq_true] at hall
    rw [List.cons_append] at hopt ⊢
    rw [tailScan_cons, hopt]
    cases cs with
    | nil =>
      have hbase := tailOpt_sep_json mid hmid
      rw [List.nil_append]
      rw [tailScan_cons, hbase]
      simp [hall.1.1]
    | cons c2 cs2 =>
      have hrec := ih hall.2
        (fun x hx => hlast x (by rwa [List.getLast?_cons_cons]))
      simp only [hall.1.1, if_true, hrec]
      rfl

/-- The lazy timestamp group: when `T` contains no `]` (and no line
terminator), the first candidate of `\[(.*?)\]` cuts exactly at the `]`
that follows `T`. -/
theorem group1Cands_append :
    ∀ T : List Char, T.all (fun c => isDotCh c && !(c = ']')) = true →
      ∀ r : List Char, ∃ more, group1Cands (T ++ ']' :: r) = (T, r) :: more := by
  intro T
  induction T with
  | nil =>
    intro _ r
    refine ⟨(group1Cands r).map (fun gr => (']' :: gr.1, gr.2)), ?_⟩
    show group1Cands (']' :: r) = _
    have hdot : isDotCh ']' = true := by decide
    simp [group1Cands, hdot]
  | cons c T' ih =>
    intro hall r
    simp only [List.all_cons, Bool.and_eq_true, Bool.not_eq_true',
      decide_eq_false_iff_not] at hall
    obtain ⟨more', hmore'⟩ := ih hall.2 r
    refine ⟨more'.map (fun gr => (c :: gr.1, gr.2)), ?_⟩
    rw [List.cons_append]
    show group1Cands (c :: (T' ++ ']' :: r)) = _
    simp only [group1Cands, hmore']
    rw [if_pos hall.1.1, if_neg hall.1.2]
    simp

/-- `\s+(\w+)\s+` then the tail, on `" LEVEL message…"`. -/
theorem middleTail_eq (L msg tail0 : List Char) (g4 : Option (List Char))
    (hL1 : L ≠ []) (hL2 : L.all isWordCh = true)
    (hm1 : msg ≠ [])
    (hmh : ∀ c, msg.head? = some c → isWsJS c = false)
    (hts : tailScan (msg ++ tail0) = some (msg, g4)) :
    middleTail (' ' :: (L ++ ' ' :: (msg ++ tail0))) = some (L, msg, g4) := by
  obtain ⟨cL, rL, rfl⟩ := List.exists_cons_of_ne_nil hL1
  have hLhead : ∀ c, ((cL :: rL) ++ ' ' :: (msg ++ tail0)).head? = some c →
      isWsJS c = false := by
    intro c hc
    rw [List.cons_append, List.head?_cons, Option.some_inj] at hc
    subst hc
    have hw : isWordCh cL = true := by
      rw [List.all_cons, Bool.and_eq_true] at hL2
      exact hL2.1
    exact not_ws_of_word hw
  have h1 := takeWhile_append_all isWsJS [' '] ((cL :: rL) ++ ' ' :: (msg ++ tail0))
    (by decide) hLhead
  have h2 := takeWhile_append_all isWordCh (cL :: rL) (' ' :: (msg ++ tail0)) hL2
    (fun c hc => by
      rw [List.head?_cons, Option.some_inj] at hc
      subst hc
      decide)
  have h3 := takeWhile_append_all isWsJS [' '] (msg ++ tail0) (by decide)
    (fun c hc => by
      rw [List.head?_append_of_ne_nil _ hm1] at hc
      exact hmh c hc)
  simp only [List.singleton_append] at h1 h3
  simp only [middleTail, h1.1, h1.2, h2.1, h2.2, h3.1, h3.2, hts]
  simp

/-- One-step unfoldings of `tryCands` and `matchLine`. -/
theorem tryCands_cons (g1 rest : List Char)
    (more : List (List Char × List Char)) :
    tryCands ((g1, rest) :: more) =
      match middleTail rest with
      | some lmj => some (g1, lmj.1, lmj.2.1, lmj.2.2)
      | none => tryCands more := rfl

theorem matchLine_cons (c : Char) (rest : List Char) :
    matchLine (c :: rest) =
      ((if c = '[' then tryCands (group1Cands rest) else none) <|> matchLine rest) := rfl

/-- The whole regex on a grammar line, given the middle/tail result. -/
theorem matchLine_mkLine (T L msg tail0 : List Char) (g4 : Option (List Char))
    (hT : T.all (fun c => isDotCh c && !(c = ']')) = true)
    (hmt : middleTail (' ' :: (L ++ ' ' :: (msg ++ tail0))) = some (L, msg, g4)) :
    matchLine ('[' :: (T ++ ']' :: ' ' :: (L ++ ' ' :: (msg ++ tail0))))
      = some (T, L, msg, g4) := by
  obtain ⟨more, hg⟩ := group1Cands_append T hT (' ' :: (L ++ ' ' :: (msg ++ tail0)))
  rw [matchLine_cons, if_pos rfl, hg, tryCands_cons, hmt]
  rfl

/-- C7 counterexample.  `LOG_REGEX` is anchored only at the end
(`line.match` scans for the leftmost match), so a line that does *not*
conform to the grammar — it starts with junk before the `[` — still
yields a full record instead of the `null` the claim requires for
non-conforming lines. -/
theorem C7_junk_prefix_parsed :
    parseLine jpNone "x[t] INFO hello".toList
      = some ⟨"t".toList, "INFO".toList, "hello".toList, none⟩ ∧
    "x[t] INFO hello".toList.head? = some 'x' := by
  decide

/-- C7 amended.  For every line of the grammar `"[T] LEVEL message"` /
`"[T] LEVEL message {json}"` — with `T` free of `]` and line
terminators, `LEVEL` a nonempty word, `message` nonempty, brace-free,
terminator-free and not starting or ending in whitespace, and the json
group brace-delimited with no line terminator inside — `parse` returns
the record with `timestamp = T`, `level = LEVEL`, `message` trimmed of
the trailing json and its separating whitespace, and `structuredPayload`
the result of `JSON.parse` on the json group (absent when parsing fails
or when there is no json group).  `parseLine` is total (never throws).
Lines with junk before a conforming suffix are parsed from the first
viable `[` rather than yielding null (see the counterexample). -/
theorem C7_grammar_parse (jp : List Char → Option JTree)
    (T L msg : List Char) (json : Option (List Char))
    (hT : T.all (fun c => isDotCh c && !(c = ']')) = true)
    (hL1 : L ≠ []) (hL2 : L.all isWordCh = true)
    (hm1 : msg ≠ [])
    (hmh : ∀ c, msg.head? = some c → isWsJS c = false)
    (hml : ∀ c, msg.getLast? = some c → isWsJS c = false)
    (hmb : msg.all (fun c => isDotCh c && !(c = '{')) = true)
    (hj : ∀ j, json = some j →
      ∃ mid, j = '{' :: (mid ++ ['}']) ∧ mid.all isDotCh = true) :
    parseLine jp (mkLine T L msg json) = some ⟨T, L, msg, json.bind jp⟩ := by
  cases json with
  | none =>
    have hts : tailScan (msg ++ []) = some (msg, none) := by
      rw [List.append_nil]
      exact tailScan_msg_nil msg hmb hml
    have hmt := middleTail_eq L msg [] none hL1 hL2 hm1 hmh hts
    have hmat := matchLine_mkLine T L msg [] none hT hmt
    have hmk : mkLine T L msg none
        = '[' :: (T ++ ']' :: ' ' :: (L ++ ' ' :: (msg ++ []))) := by
      simp [mkLine]
    simp only [parseLine, hmk, hmat]
    rfl
  | some j =>
    obtain ⟨mid, rfl, hmid⟩ := hj j rfl
    have hts := tailScan_msg_json mid hmid msg hmb hml
    have hmt := middleTail_eq L msg (' ' :: ('{' :: (mid ++ ['}'])))
      (some ('{' :: (mid ++ ['}']))) hL1 hL2 hm1 hmh hts
    have hmat := matchLine_mkLine T L msg (' ' :: ('{' :: (mid ++ ['}'])))
      (some ('{' :: (mid ++ ['}']))) hT hmt
    have hmk : mkLine T L msg (some ('{' :: (mid ++ ['}'])))
        = '[' :: (T ++ ']' :: ' ' ::
            (L ++ ' ' :: (msg ++ ' ' :: ('{' :: (mid ++ ['}']))))) := rfl
    simp only [parseLine, hmk, hmat]
    rfl

/-- C7 witness. -/
theorem C7_grammar_parse_witness :
    parseLine jpNone (mkLine "2024-01-01".toList "INFO".toList "hello world".toList
        (some "\x7b\"a\":1\x7d".toList))
      = some ⟨"2024-01-01".toList, "INFO".toList, "hello world".toList, none⟩ := by
  have h := C7_grammar_parse jpNone "2024-01-01".toList "INFO".toList
    "hello world".toList (some "\x7b\"a\":1\x7d".toList)
    (by decide) (by decide) (by decide) (by decide)
    (by
      intro c hc
      have h2 : ("hello world".toList).head? = some 'h' := by decide
      rw [h2, Option.some_inj] at hc
      subst hc
      decide)
    (by
      intro c hc
      have h2 : ("hello world".toList).getLast? = some 'd' := by decide
      rw [h2, Option.some_inj] at hc
      subst hc
      decide)
    (by decide)
    (by
      intro j hj
      refine ⟨"\"a\":1".toList, ?_, by decide⟩
      rw [Option.some_inj] at hj
      rw [← hj]
      decide)
  exact h

end LogProc
